import Mathlib

/-!
# Verification of `cordova-config` (`src/index.js`)

A shallow embedding of the document-mutation engine of `cordova-config`:
the elementtree-style node model, the path lookup subset the code uses
(`./tag`, `./tag/[@attr="value"]`), the validation regexes, and the
mutating operations (`setID`, `setVersion`, `setAndroidVersionCode`,
`setIOSBundleVersion`, `setPreference`, `removeAccessOrigin(s)`,
`setAccessOrigin`, `addHook`, `addRawXML`, `parse`, `fixAbsoluteXPath`).

The regexes in the source are built with `new RegExp('...')` from plain
single-quoted JS string literals, so JavaScript string-escape rules apply
BEFORE regex parsing: an unrecognized escape such as `\.` or `\w` loses its
backslash.  The patterns embedded here are the effective patterns the
JavaScript engine actually receives, not the patterns the author likely
intended.  `RegExp.test` on a `^...$`-anchored pattern is whole-string
language membership, which we decide with Brzozowski derivatives.
-/

namespace CordovaConfig

/-! ## A tiny regex engine (Brzozowski derivatives)

Character classes are predicates.  `reMatch r s` decides whether the whole
string `s` is in the language of `r`, which coincides with JS
`new RegExp('^P$').test(s)` for the backreference-free patterns below. -/

inductive RE where
  | fail : RE
  | eps : RE
  | cls : (Char → Bool) → RE
  | cat : RE → RE → RE
  | alt : RE → RE → RE
  | star : RE → RE

def RE.nullable : RE → Bool
  | .fail => false
  | .eps => true
  | .cls _ => false
  | .cat a b => a.nullable && b.nullable
  | .alt a b => a.nullable || b.nullable
  | .star _ => true

def RE.deriv : RE → Char → RE
  | .fail, _ => .fail
  | .eps, _ => .fail
  | .cls p, c => if p c then .eps else .fail
  | .cat a b, c =>
      if a.nullable then .alt (.cat (a.deriv c) b) (b.deriv c)
      else .cat (a.deriv c) b
  | .alt a b, c => .alt (a.deriv c) (b.deriv c)
  | .star a, c => .cat (a.deriv c) (.star a)

def reMatch (r : RE) (s : String) : Bool :=
  (s.data.foldl RE.deriv r).nullable

/-- Literal character. -/
def chrRE (c : Char) : RE := .cls (fun d => d == c)

/-- Character range, e.g. `[0-9]`. -/
def rngRE (lo hi : Char) : RE := .cls (fun c => lo ≤ c && c ≤ hi)

/-- Literal string (concatenation of its characters). -/
def strRE (s : String) : RE := s.data.foldr (fun c r => .cat (chrRE c) r) .eps

/-- `P?` -/
def optRE (a : RE) : RE := .alt .eps a

/-- `P+` -/
def plusRE (a : RE) : RE := .cat a (.star a)

/-- `P{0,2}` -/
def rep02RE (a : RE) : RE := .alt .eps (.cat a (.alt .eps a))

/-- JS regex `.` without the `s` flag: any character except a line
terminator (LF, CR, U+2028, U+2029). -/
def anyCharRE : RE :=
  .cls (fun c => !(c == '\n' || c == '\r' ||
                   c == (Char.ofNat 0x2028) || c == (Char.ofNat 0x2029)))

def digitRE : RE := rngRE '0' '9'

def alnumRE : RE :=
  .cls (fun c => ('0' ≤ c && c ≤ '9') || ('a' ≤ c && c ≤ 'z') ||
                 ('A' ≤ c && c ≤ 'Z'))

/-! ## The effective validation patterns of the source

`setVersion` (line 173) constructs `new RegExp('^[0-9]+\.[0-9]+\.[0-9]+$')`.
In the string literal, `\.` degrades to `.`, so the effective pattern is
`^[0-9]+.[0-9]+.[0-9]+$` where `.` matches any non-line-terminator. -/
def versionRE : RE :=
  .cat (plusRE digitRE) (.cat anyCharRE
    (.cat (plusRE digitRE) (.cat anyCharRE (plusRE digitRE))))

/-- `setAndroidVersionCode` (line 190): `^[0-9]+$` (no escapes involved). -/
def androidVersionCodeRE : RE := plusRE digitRE

/-- `setIOSBundleVersion` (line 207): written `'^[1-9][0-9]*(\.[0-9]+){0,2}$'`;
`\.` degrades to `.`, so the effective pattern is
`^[1-9][0-9]*(.[0-9]+){0,2}$` with `.` = any non-line-terminator. -/
def iosBundleVersionRE : RE :=
  .cat (rngRE '1' '9') (.cat (.star digitRE)
    (rep02RE (.cat anyCharRE (plusRE digitRE))))

/-- The big character class ending the `setID` pattern (line 81).  After JS
string unescaping the class source is
`[a-zA-Z0-9-‌​.?,'/\+&amp;%$#_]` (the source file literally
contains the zero-width characters U+200C and U+200B, and the five
characters of `&amp;`), i.e. the ranges `a-z`, `A-Z`, `0-9` plus the listed
single characters. -/
def idTailClassRE : RE :=
  .cls (fun c =>
    ('a' ≤ c && c ≤ 'z') || ('A' ≤ c && c ≤ 'Z') || ('0' ≤ c && c ≤ '9') ||
    c == '-' || c == (Char.ofNat 0x200C) || c == (Char.ofNat 0x200B) ||
    c == '.' || c == '?' || c == ',' || c == (Char.ofNat 0x27) ||
    c == '/' || c == '+' || c == '&' || c == 'a' || c == 'm' ||
    c == 'p' || c == ';' || c == '%' || c == '$' || c == '#' || c == '_')

/-- `setID` (line 81): written
`'^[0-9a-zA-Z]([-.\w]*[0-9a-zA-Z])*(:(0-9)*)*(\/?)([...]*)?$'`.
After string unescaping, `[-.\w]` becomes `[-.w]` (the three characters
`-`, `.`, `w`), `(0-9)` is a group matching the literal three-character
string `0-9`, and `(\/?)` becomes `(/?)`. -/
def idRE : RE :=
  .cat alnumRE
    (.cat (.star (.cat (.star (.cls (fun c => c == '-' || c == '.' || c == 'w')))
                       alnumRE))
      (.cat (.star (.cat (chrRE ':') (.star (strRE "0-9"))))
        (.cat (optRE (chrRE '/'))
          (optRE (.star idTailClassRE)))))

/-! ## The elementtree node model

A node has a tag, an ordered attribute list (string key, string value, keys
unique — a JS object preserving insertion order), text and ordered
children (§3 of the spec, matching the elementtree `Element` contract). -/

inductive Element where
  | mk : String → List (String × String) → String → List Element → Element

def Element.tag : Element → String
  | .mk t _ _ _ => t

def Element.attrib : Element → List (String × String)
  | .mk _ a _ _ => a

def Element.text : Element → String
  | .mk _ _ x _ => x

def Element.children : Element → List Element
  | .mk _ _ _ cs => cs

/-- JS object property read `e.attrib[k]`. -/
def getAttr (e : Element) (k : String) : Option String :=
  (e.attrib.find? (fun kv => kv.1 == k)).map (fun kv => kv.2)

/-- JS object property write on an attribute list: update in place if the
key exists (insertion order preserved), otherwise append. -/
def attribSet : List (String × String) → String → String → List (String × String)
  | [], k, v => [(k, v)]
  | kv :: rest, k, v =>
      if kv.1 == k then (k, v) :: rest else kv :: attribSet rest k v

def setAttr (e : Element) (k v : String) : Element :=
  .mk e.tag (attribSet e.attrib k v) e.text e.children

/-- `parent.append(child)` of elementtree. -/
def appendChild (e : Element) (c : Element) : Element :=
  .mk e.tag e.attrib e.text (e.children ++ [c])

def withChildren (e : Element) (cs : List Element) : Element :=
  .mk e.tag e.attrib e.text cs

/-! ## Path lookup

The code only ever uses the elementtree path subset that the spec's tree
contract (§6) names: child-by-tag (`./tag`) and an attribute-equality
filter step (`/[@attr="value"]`).  A path is a list of such steps,
relative to the node it is applied to. -/

inductive Step where
  | byTag : String → Step
  | byAttr : String → String → Step

/-- First `some` produced by `g` over a list, scanning left to right. -/
def firstSome (g : α → Option β) : List α → Option β
  | [] => none
  | c :: cs =>
      match g c with
      | some r => some r
      | none => firstSome g cs

/-- Replace the first list entry on which `g` succeeds by `g`'s result;
`none` when `g` fails on every entry. -/
def replaceFirstSome (g : α → Option α) : List α → Option (List α)
  | [] => none
  | c :: cs =>
      match g c with
      | some c2 => some (c2 :: cs)
      | none => (replaceFirstSome g cs).map (fun cs2 => c :: cs2)

/-- `find`: first match in document order, `none` when there is no match
(elementtree returns `null`).  A `byTag` step descends into the children
with that tag, in order; a `byAttr` step filters the current node. -/
def findPath : List Step → Element → Option Element
  | [], e => some e
  | .byAttr k v :: rest, e =>
      if getAttr e k == some v then findPath rest e else none
  | .byTag t :: rest, e =>
      firstSome (fun c => if c.tag == t then findPath rest c else none) e.children

/-- `findall`: all matches in document order. -/
def findAllPath : List Step → Element → List Element
  | [], e => [e]
  | .byAttr k v :: rest, e =>
      if getAttr e k == some v then findAllPath rest e else []
  | .byTag t :: rest, e =>
      e.children.flatMap (fun c => if c.tag == t then findAllPath rest c else [])

/-- Rebuild the tree with `f` applied to the node `findPath` would return;
`none` exactly when the path has no match. -/
def updateFirst : List Step → (Element → Element) → Element → Option Element
  | [], f, e => some (f e)
  | .byAttr k v :: rest, f, e =>
      if getAttr e k == some v then updateFirst rest f e else none
  | .byTag t :: rest, f, e =>
      (replaceFirstSome (fun c => if c.tag == t then updateFirst rest f c else none)
        e.children).map (withChildren e)

/-! ## The `Config` object and the error taxonomy

The source throws plain JS `Error`s; the spec's taxonomy (§7) calls the
root-tag failure a `SchemaError` and the setter failures `ValidationError`s.
A call that dereferences a property of `undefined` raises a JS `TypeError`;
the embedding surfaces it as `JsError.typeError`.  Mutating operations
return the (possibly partially) updated document together with the error,
so that "document unchanged" is expressible. -/

inductive JsError where
  | validation : String → JsError
  | typeError : String → JsError
deriving DecidableEq

structure Config where
  file : String
  root : Element

/-- `parse` (lines 24-41), after the external steps (file read, BOM strip,
XML parse) have produced the root element: check the root tag and either
return the document or throw the schema error built at line 37. -/
def parse (file : String) (root : Element) : Except String Config :=
  if root.tag ≠ "widget" then
    .error (file ++ " has incorrect root node name (expected \"widget\", was \""
              ++ root.tag ++ "\")")
  else
    .ok ⟨file, root⟩

/-- `fixAbsoluteXPath` (lines 51-61).  `path.indexOf(pfx) === 0` is
"starts with `pfx`" (expressed on the character lists); `path.replace(pfx,
'.')` replaces the first occurrence of `pfx`, which under that guard is
the prefix at position 0, so the result is `"." ++ path.drop pfx.length`.
A JS-falsy path (absent, modelled `none`, or the empty string) is
returned unchanged. -/
def fixAbsoluteXPath (d : Config) (path : Option String) : Option String :=
  let pfx := "/" ++ d.root.tag
  match path with
  | none => none
  | some p =>
      if p ≠ "" ∧ pfx.data.isPrefixOf p.data then
        some ("." ++ p.drop pfx.length)
      else some p

/-- `setID` (lines 80-90): test the (effective) id regex, throw on
mismatch, otherwise write `root.attrib.id`. -/
def setID (d : Config) (id : String) : Option JsError × Config :=
  if !reMatch idRE id then
    (some (.validation "Please provide a valid id."), d)
  else
    (none, { d with root := setAttr d.root "id" id })

/-- `setVersion` (lines 172-182): test the (effective) version regex,
throw on mismatch, otherwise write `root.attrib.version`. -/
def setVersion (d : Config) (version : String) : Option JsError × Config :=
  if !reMatch versionRE version then
    (some (.validation "Please provide a valid version number."), d)
  else
    (none, { d with root := setAttr d.root "version" version })

/-- `setAndroidVersionCode` (lines 189-199). -/
def setAndroidVersionCode (d : Config) (versionCode : String) : Option JsError × Config :=
  if !reMatch androidVersionCodeRE versionCode then
    (some (.validation "Please provide a valid Android version code."), d)
  else
    (none, { d with root := setAttr d.root "android-versionCode" versionCode })

/-- `setIOSBundleVersion` (lines 206-216). -/
def setIOSBundleVersion (d : Config) (version : String) : Option JsError × Config :=
  if !reMatch iosBundleVersionRE version then
    (some (.validation "Please provide a valid iOS bundle version number."), d)
  else
    (none, { d with root := setAttr d.root "ios-CFBundleVersion" version })

/-- The path string `'./preference/[@name="' + name + '"]'` (line 238). -/
def prefPath (name : String) : List Step :=
  [.byTag "preference", .byAttr "name" name]

/-- The path string `'./platform/[@name="' + platform + '"]'` (line 226). -/
def platformPath (platform : String) : List Step :=
  [.byTag "platform", .byAttr "name" platform]

/-- `setPreference` (lines 224-252), translated line by line.  The local
variable `platformElement` is computed at line 226 and the platform node
creation at lines 229-235 appends to the root, but lines 242 and 251 then
operate on `this.platformElement` — a property that is never assigned
anywhere on the `Config` object, hence `undefined`.  Both
`this.platformElement.remove(preference)` and
`this.platformElement.append(preference)` therefore raise a `TypeError`,
after any platform-node creation has already mutated the document. -/
def setPreference (d : Config) (name value : String) (platform : Option String) :
    Option JsError × Config :=
  match platform with
  | none =>
      -- platformElement = this._root; it is not null, so no creation happens.
      let platformElement := d.root
      match findPath (prefPath name) platformElement with
      | some _ =>
          (some (.typeError "Cannot read property remove of undefined"), d)
      | none =>
          (some (.typeError "Cannot read property append of undefined"), d)
  | some p =>
      match findPath (platformPath p) d.root with
      | some platformElement =>
          match findPath (prefPath name) platformElement with
          | some _ =>
              (some (.typeError "Cannot read property remove of undefined"), d)
          | none =>
              (some (.typeError "Cannot read property append of undefined"), d)
      | none =>
          -- lines 229-235: create the platform element and append it to root
          let platformElement : Element := .mk "platform" [("name", p)] "" []
          let d2 := { d with root := appendChild d.root platformElement }
          -- line 238 on the freshly created, empty platform element
          match findPath (prefPath name) platformElement with
          | some _ =>
              (some (.typeError "Cannot read property remove of undefined"), d2)
          | none =>
              (some (.typeError "Cannot read property append of undefined"), d2)

/-- `removeAccessOrigins` (lines 257-263): `findall('./access')` snapshots
every direct `access` child, and the `forEach` removes each of them from
the root by identity; the net effect on the (ordered) child list is to
drop exactly the children with tag `access` and keep everything else in
order. -/
def removeAccessOrigins (d : Config) : Config :=
  let cs := d.root.children.filter (fun c => !(c.tag == "access"))
  { d with root := withChildren d.root cs }

/-- The predicate of the path `'./access/[@origin="' + origin + '"]'`. -/
def accessPred (origin : String) (c : Element) : Bool :=
  c.tag == "access" && getAttr c "origin" == some origin

/-- Remove the first element satisfying `p`; identity when none does. -/
def eraseFirstP (p : Element → Bool) : List Element → List Element
  | [] => []
  | c :: cs => if p c then cs else c :: eraseFirstP p cs

/-- `removeAccessOrigin` (lines 270-277): `find` returns the first direct
`access` child with the matching `origin` (or `null`); `root.remove` on
the found node deletes, by identity, exactly that first matching child. -/
def removeAccessOrigin (d : Config) (origin : String) : Config :=
  match findPath [.byTag "access", .byAttr "origin" origin] d.root with
  | some _ =>
      let cs := eraseFirstP (accessPred origin) d.root.children
      { d with root := withChildren d.root cs }
  | none => d

/-- `setAccessOrigin` (lines 286-303): remove the origin if present, build
a fresh `access` element whose attributes start with `origin` and then get
every key/value of `options` assigned in order, and append it to root.
`options` is a JS object (keys unique, insertion-ordered), modelled as an
association list; the absent-options call site passes `[]`. -/
def setAccessOrigin (d : Config) (origin : String)
    (options : List (String × String)) : Config :=
  let d1 := removeAccessOrigin d origin
  let el0 : Element := .mk "access" [("origin", origin)] "" []
  let el := options.foldl (fun e kv => setAttr e kv.1 kv.2) el0
  { d1 with root := appendChild d1.root el }

/-- The fixed list of recognized hook types (lines 313-322). -/
def cordovaHookTypes : List String :=
  ["after_build", "after_compile", "after_clean", "after_docs", "after_emulate",
   "after_platform_add", "after_platform_rm", "after_platform_ls", "after_plugin_add",
   "after_plugin_ls", "after_plugin_rm", "after_plugin_search", "after_plugin_install",
   "after_prepare", "after_run", "after_serve", "before_build", "before_clean",
   "before_compile", "before_docs", "before_emulate", "before_platform_add",
   "before_platform_rm", "before_platform_ls", "before_plugin_add", "before_plugin_ls",
   "before_plugin_rm", "before_plugin_search", "before_plugin_install",
   "before_plugin_uninstall", "before_prepare", "before_run", "before_serve", "pre_package"]

/-- The element appended by a successful `addHook` (lines 329-334). -/
def hookElement (type src : String) : Element :=
  .mk "hook" [("type", type), ("src", src)] "" []

/-- `addHook` (lines 312-335): `indexOf(type) === -1` is non-membership;
throw in that case, otherwise append the hook element to root. -/
def addHook (d : Config) (type src : String) : Option JsError × Config :=
  if !(cordovaHookTypes.contains type) then
    (some (.validation "Please provide a valid hook target"), d)
  else
    (none, { d with root := appendChild d.root (hookElement type src) })

/-- `addRawXML` (lines 346-361).  `raw` is the already-parsed fragment
(parsing is the external parser's job); the two optional path arguments
are taken in the tree-relative path language that `this._doc.find`
receives after `fixAbsoluteXPath` has run.  `parent` is the `atXPath`
match (root when `atXPath` is absent), the skip flag is set when
`ifXPathDoesNotExist` is given and matches, and the fragment is appended
to the parent only when the parent exists and the skip flag is off;
otherwise the call silently does nothing. -/
def addRawXML (d : Config) (raw : Element)
    (atXPath ifXPathDoesNotExist : Option (List Step)) : Config :=
  let alreadyExists : Bool :=
    match ifXPathDoesNotExist with
    | some q => (findPath q d.root).isSome
    | none => false
  if alreadyExists then d
  else
    match atXPath with
    | none => { d with root := appendChild d.root raw }
    | some p =>
        match updateFirst p (fun e => appendChild e raw) d.root with
        | some r => { d with root := r }
        | none => d

/-- The `access` element that `setAccessOrigin` builds when the option
keys are distinct and do not collide with `origin`. -/
def accessElement (origin : String) (options : List (String × String)) : Element :=
  .mk "access" (("origin", origin) :: options) "" []

/-- A freshly loaded minimal document: `<widget/>` in `config.xml`. -/
def sampleConfig : Config := ⟨"config.xml", .mk "widget" [] "" []⟩

/-- A document whose root has one `name` child and one `platform` child;
used to exercise path matches. -/
def sampleConfig2 : Config :=
  ⟨"config.xml", .mk "widget" [("id", "app")] ""
    [.mk "name" [] "HelloWorld" [], .mk "platform" [("name", "ios")] "" []]⟩

/-- A document with two `access` children carrying the same origin. -/
def dupConfig : Config :=
  ⟨"config.xml", .mk "widget" [] ""
    [.mk "access" [("origin", "https://a.com")] "" [],
     .mk "access" [("origin", "https://a.com"), ("subdomains", "true")] "" []]⟩

/-! ## Helper lemmas -/

theorem Element.eta (e : Element) :
    Element.mk e.tag e.attrib e.text e.children = e := by
  cases e <;> rfl

theorem withChildren_children (e : Element) (cs : List Element) :
    (withChildren e cs).children = cs := rfl

theorem firstSome_eq_find? (p : α → Bool) (l : List α) :
    firstSome (fun a => if p a then some a else none) l = l.find? p := by
  induction l with
  | nil => rfl
  | cons a l ih =>
      by_cases h : p a <;> simp [firstSome, List.find?, h, ih]

/-- The two-step access path is a `find?` over the direct children. -/
theorem findPath_access (e : Element) (o : String) :
    findPath [.byTag "access", .byAttr "origin" o] e
      = e.children.find? (accessPred o) := by
  rw [← firstSome_eq_find?]
  unfold findPath
  congr 1
  funext c
  by_cases ht : c.tag == "access"
  · by_cases ha : getAttr c "origin" == some o <;>
      simp [findPath, ht, ha, accessPred]
  · simp [ht, accessPred]

theorem eraseFirstP_of_no_match (p : Element → Bool) (l : List Element)
    (h : ∀ c ∈ l, ¬ p c) : eraseFirstP p l = l := by
  induction l with
  | nil => rfl
  | cons a l ih =>
      have ha : ¬ p a := h a (List.mem_cons_self a l)
      simp only [eraseFirstP, if_neg ha]
      rw [ih (fun c hc => h c (List.mem_cons_of_mem a hc))]

/-- `removeAccessOrigin` always leaves the root equal to the old root with
the first matching `access` child erased (erasing nothing when there is no
match), and never touches the file. -/
theorem removeAccessOrigin_root (d : Config) (o : String) :
    (removeAccessOrigin d o).root
        = withChildren d.root (eraseFirstP (accessPred o) d.root.children)
      ∧ (removeAccessOrigin d o).file = d.file := by
  unfold removeAccessOrigin
  rw [findPath_access]
  cases hf : d.root.children.find? (accessPred o) with
  | none =>
      have hnone : ∀ c ∈ d.root.children, ¬ accessPred o c :=
        List.find?_eq_none.mp hf
      rw [eraseFirstP_of_no_match _ _ hnone]
      exact ⟨(Element.eta d.root).symm ▸ rfl, rfl⟩
  | some c => exact ⟨rfl, rfl⟩

theorem countP_eraseFirstP (p : Element → Bool) (l : List Element)
    (h : 1 ≤ l.countP p) :
    (eraseFirstP p l).countP p = l.countP p - 1 := by
  induction l with
  | nil => simp at h
  | cons a l ih =>
      by_cases ha : p a
      · simp [eraseFirstP, ha, List.countP_cons, if_pos ha]
      · have hl : 1 ≤ l.countP p := by
          simpa [List.countP_cons, ha] using h
        simp [eraseFirstP, ha, List.countP_cons, ih hl]

theorem eraseFirstP_of_countP_le_one (p : Element → Bool) (l : List Element)
    (h : l.countP p ≤ 1) : (eraseFirstP p l).countP p = 0 := by
  rcases Nat.eq_zero_or_pos (l.countP p) with h0 | h1
  · have hnone : ∀ c ∈ l, ¬ p c := by
      intro c hc
      exact (List.countP_eq_zero.mp h0) c hc
    rw [eraseFirstP_of_no_match _ _ hnone]
    exact h0
  · rw [countP_eraseFirstP _ _ h1]
    omega

theorem eraseFirstP_append_of_no_match (p : Element → Bool)
    (l1 l2 : List Element) (h : ∀ c ∈ l1, ¬ p c) :
    eraseFirstP p (l1 ++ l2) = l1 ++ eraseFirstP p l2 := by
  induction l1 with
  | nil => rfl
  | cons a l ih =>
      have ha : ¬ p a := h a (List.mem_cons_self a l)
      simp only [List.cons_append, eraseFirstP, if_neg ha, List.append_eq]
      rw [ih (fun c hc => h c (List.mem_cons_of_mem a hc))]

theorem attribSet_append (A : List (String × String)) (k v : String)
    (hk : k ∉ A.map Prod.fst) : attribSet A k v = A ++ [(k, v)] := by
  induction A with
  | nil => rfl
  | cons kv rest ih =>
      have hne : kv.1 ≠ k := by
        intro h
        exact hk (by simp [h.symm])
      simp only [attribSet, beq_iff_eq, if_neg hne, List.cons_append]
      rw [ih (by intro h; exact hk (List.mem_cons_of_mem _ h))]

/-- Folding JS property assignments of fresh, pairwise-distinct keys over
an element appends the pairs to its attribute list in order. -/
theorem foldl_setAttr (opts : List (String × String)) :
    ∀ (e : Element), (opts.map Prod.fst).Nodup →
    (∀ k ∈ opts.map Prod.fst, k ∉ e.attrib.map Prod.fst) →
    opts.foldl (fun e kv => setAttr e kv.1 kv.2) e
      = Element.mk e.tag (e.attrib ++ opts) e.text e.children := by
  induction opts with
  | nil =>
      intro e _ _
      simp [Element.eta]
  | cons kv rest ih =>
      intro e hnd hdisj
      have hk : kv.1 ∉ e.attrib.map Prod.fst := hdisj kv.1 (by simp)
      have hstep : setAttr e kv.1 kv.2
          = Element.mk e.tag (e.attrib ++ [kv]) e.text e.children := by
        simp only [setAttr, attribSet_append e.attrib kv.1 kv.2 hk]
      rw [List.foldl_cons, hstep]
      have hnd2 : (rest.map Prod.fst).Nodup := by
        simpa using hnd.of_cons
      have hdisj2 : ∀ k ∈ rest.map Prod.fst,
          k ∉ (Element.mk e.tag (e.attrib ++ [kv]) e.text e.children).attrib.map Prod.fst := by
        intro k hkrest
        simp only [Element.attrib, List.map_append, List.mem_append]
        rintro (hmem | hmem)
        · exact hdisj k (by simp [hkrest]) hmem
        · have hkk : k = kv.1 := by simpa using hmem
          have hmem2 : kv.1 ∈ rest.map Prod.fst := hkk ▸ hkrest
          have hnd3 : (kv.1 :: rest.map Prod.fst).Nodup := by simpa using hnd
          exact hnd3.not_mem hmem2
      rw [ih _ hnd2 hdisj2]
      simp [Element.tag, Element.attrib, Element.text, Element.children]

theorem replaceFirstSome_isSome (g : α → Option α) (h : α → Option β)
    (hg : ∀ a, (g a).isSome = (h a).isSome) (l : List α) :
    (replaceFirstSome g l).isSome = (firstSome h l).isSome := by
  induction l with
  | nil => rfl
  | cons a l ih =>
      simp only [replaceFirstSome, firstSome]
      cases hga : g a with
      | some a2 =>
          have := hg a
          rw [hga] at this
          cases hha : h a with
          | some b => simp
          | none => rw [hha] at this; simp at this
      | none =>
          have := hg a
          rw [hga] at this
          cases hha : h a with
          | some b => rw [hha] at this; simp at this
          | none => simpa using ih

/-- `updateFirst` succeeds exactly when `findPath` does. -/
theorem updateFirst_isSome (p : List Step) :
    ∀ (e : Element) (f : Element → Element),
    (updateFirst p f e).isSome = (findPath p e).isSome := by
  induction p with
  | nil => intro e f; rfl
  | cons s rest ih =>
      intro e f
      cases s with
      | byAttr k v =>
          by_cases hg : getAttr e k == some v <;>
            simp [updateFirst, findPath, hg, ih]
      | byTag t =>
          have hmap : ∀ (o : Option (List Element)),
              (o.map (withChildren e)).isSome = o.isSome := by
            intro o; cases o <;> rfl
          simp only [updateFirst, findPath, hmap]
          exact replaceFirstSome_isSome
            (fun c => if c.tag == t then updateFirst rest f c else none)
            (fun c => if c.tag == t then findPath rest c else none)
            (fun c => by by_cases hc : c.tag == t <;> simp [hc, ih]) e.children

/-- A tree update along a path never changes the tag or the attributes of
the node it is applied to, provided the update function itself preserves
them. -/
theorem updateFirst_tag_attrib (p : List Step) :
    ∀ (e e2 : Element) (f : Element → Element),
    (∀ x, (f x).tag = x.tag ∧ (f x).attrib = x.attrib) →
    updateFirst p f e = some e2 → e2.tag = e.tag ∧ e2.attrib = e.attrib := by
  induction p with
  | nil =>
      intro e e2 f hf h
      have : f e = e2 := by simpa [updateFirst] using h
      exact this ▸ hf e
  | cons s rest ih =>
      intro e e2 f hf h
      cases s with
      | byAttr k v =>
          by_cases hg : getAttr e k == some v
          · exact ih e e2 f hf (by simpa [updateFirst, hg] using h)
          · simp [updateFirst, hg] at h
      | byTag t =>
          simp only [updateFirst, Option.map_eq_some'] at h
          obtain ⟨cs, _, hcs⟩ := h
          exact hcs ▸ ⟨rfl, rfl⟩

theorem replaceFirstSome_firstSome (g : α → Option α) (h : α → Option β)
    (r : β → β)
    (hstep : ∀ a b, h a = some b → ∃ a2, g a = some a2 ∧ h a2 = some (r b))
    (hnone : ∀ a, h a = none → g a = none) :
    ∀ (l : List α) (b : β), firstSome h l = some b →
    ∃ l2, replaceFirstSome g l = some l2 ∧ firstSome h l2 = some (r b) := by
  intro l
  induction l with
  | nil => intro b hb; simp [firstSome] at hb
  | cons a l ih =>
      intro b hb
      cases hha : h a with
      | some b2 =>
          have hb2 : b2 = b := by
            simpa [firstSome, hha] using hb
          obtain ⟨a2, hga, hha2⟩ := hstep a b2 hha
          refine ⟨a2 :: l, ?_, ?_⟩
          · simp [replaceFirstSome, hga]
          · simp [firstSome, hha2, hb2]
      | none =>
          have hl : firstSome h l = some b := by
            simpa [firstSome, hha] using hb
          obtain ⟨l2, hrep, hfs⟩ := ih b hl
          refine ⟨a :: l2, ?_, ?_⟩
          · simp [replaceFirstSome, hnone a hha, hrep]
          · simp [firstSome, hha, hfs]

/-- When `findPath` matches a node `x`, updating with "append `raw`"
succeeds, and re-running the same path on the updated tree finds `x` with
`raw` appended. -/
theorem updateFirst_findPath (raw : Element) (p : List Step) :
    ∀ (e x : Element), findPath p e = some x →
    ∃ e2, updateFirst p (fun n => appendChild n raw) e = some e2
        ∧ findPath p e2 = some (appendChild x raw) := by
  induction p with
  | nil =>
      intro e x hx
      have hex : e = x := by simpa [findPath] using hx
      exact ⟨appendChild e raw, rfl, by simp [findPath, hex]⟩
  | cons s rest ih =>
      intro e x hx
      cases s with
      | byAttr k v =>
          by_cases hg : getAttr e k == some v
          · have hx2 : findPath rest e = some x := by
              simpa [findPath, hg] using hx
            obtain ⟨e2, hupd, hfind⟩ := ih e x hx2
            have hpres := updateFirst_tag_attrib rest e e2
              (fun n => appendChild n raw) (fun n => ⟨rfl, rfl⟩) hupd
            have hg2 : getAttr e2 k == some v := by
              rw [show getAttr e2 k = getAttr e k from by
                simp [getAttr, hpres.2]]
              exact hg
            exact ⟨e2, by simpa [updateFirst, hg] using hupd,
              by simpa [findPath, hg2] using hfind⟩
          · simp [findPath, hg] at hx
      | byTag t =>
          have hx2 : firstSome
              (fun c => if c.tag == t then findPath rest c else none)
              e.children = some x := by
            simpa [findPath] using hx
          obtain ⟨l2, hrep, hfs⟩ := replaceFirstSome_firstSome
            (fun c => if c.tag == t then
                updateFirst rest (fun n => appendChild n raw) c else none)
            (fun c => if c.tag == t then findPath rest c else none)
            (fun b => appendChild b raw)
            (by
              intro a b hab
              by_cases hat : a.tag == t
              · have hab2 : findPath rest a = some b := by
                  simpa [hat] using hab
                obtain ⟨a2, hupd, hfind⟩ := ih a b hab2
                have hpres := updateFirst_tag_attrib rest a a2
                  (fun n => appendChild n raw) (fun n => ⟨rfl, rfl⟩) hupd
                have hat2 : (a2.tag == t) = true := by rw [hpres.1]; exact hat
                exact ⟨a2, by simp [hat, hupd], by simp [hat2, hfind]⟩
              · simp [hat] at hab)
            (by
              intro a hab
              by_cases hat : a.tag == t
              · have hnone : findPath rest a = none := by simpa [hat] using hab
                have := updateFirst_isSome rest a (fun n => appendChild n raw)
                rw [hnone] at this
                simp only [hat, if_true]
                exact Option.not_isSome_iff_eq_none.mp (by simp [this])
              · simp [hat])
            e.children x hx2
          refine ⟨withChildren e l2, ?_, ?_⟩
          · simp only [updateFirst]
            rw [hrep]
            rfl
          · simpa [findPath, withChildren_children] using hfs

theorem appendChild_children (e c : Element) :
    (appendChild e c).children = e.children ++ [c] := rfl

theorem contains_iff (l : List String) (a : String) :
    l.contains a = true ↔ a ∈ l := List.elem_iff

theorem accessPred_accessElement (o : String) (opts : List (String × String)) :
    accessPred o (accessElement o opts) = true := by
  simp [accessPred, accessElement, getAttr, Element.tag, Element.attrib,
    List.find?]

/-- The net child-list effect of one `setAccessOrigin` call (for options
with pairwise-distinct keys not colliding with `origin`): erase the first
matching `access` child, then append the freshly built one. -/
theorem setAccessOrigin_children (d : Config) (o : String)
    (opts : List (String × String)) (hnd : (opts.map Prod.fst).Nodup)
    (hno : "origin" ∉ opts.map Prod.fst) :
    (setAccessOrigin d o opts).root.children
      = eraseFirstP (accessPred o) d.root.children ++ [accessElement o opts] := by
  have hfold := foldl_setAttr opts (Element.mk "access" [("origin", o)] "" [])
    hnd (by
      intro k hk
      simp only [Element.attrib, List.map_cons, List.map_nil,
        List.mem_singleton]
      intro hko
      exact hno (hko ▸ hk))
  unfold setAccessOrigin
  rw [appendChild_children, (removeAccessOrigin_root d o).1,
    withChildren_children, hfold]
  rfl

/-! ## The claims -/

/-- C1: the claim states that `setPreference("foo","bar")` (no platform)
succeeds and, iterated, maintains at most one `preference` per (scope,
name).  The code cannot do this: lines 242 and 251 read
`this.platformElement`, a property never assigned on the `Config` object,
so every call throws a `TypeError` before appending any preference — here
evaluated on a freshly loaded `<widget/>` document, where the call fails
and the document is returned unchanged (and hence a second call fails
identically). -/
theorem claim_C1_setPreference_throws :
    setPreference sampleConfig "foo" "bar" none
      = (some (.typeError "Cannot read property append of undefined"),
         sampleConfig) := rfl

/-- C2: the claim states that `setVersion` rejects every string that is
not `MAJOR.MINOR.PATCH`.  The effective pattern is
`^[0-9]+.[0-9]+.[0-9]+$` with `.` a wildcard (the `\.` lost its backslash
inside the JS string literal), so the non-version string `"1a2b3"` is
accepted and written to the root's `version` attribute; genuine versions
like `"1.2.3"` are accepted as the claim says. -/
theorem claim_C2_setVersion_wildcard_dot :
    reMatch versionRE "1a2b3" = true
    ∧ setVersion sampleConfig "1a2b3"
        = (none, ⟨"config.xml", .mk "widget" [("version", "1a2b3")] "" []⟩)
    ∧ setVersion sampleConfig "1.2.3"
        = (none, ⟨"config.xml", .mk "widget" [("version", "1.2.3")] "" []⟩) :=
  ⟨rfl, rfl, rfl⟩

/-- C3: every validated setter (`setID`, `setVersion`,
`setAndroidVersionCode`, `setIOSBundleVersion`, `addHook`), on any input
failing its validation check, returns the `ValidationError` of the source
and leaves the document completely unchanged. -/
theorem claim_C3_validation_atomic :
    (∀ (d : Config) (id : String), reMatch idRE id = false →
       setID d id = (some (.validation "Please provide a valid id."), d))
  ∧ (∀ (d : Config) (v : String), reMatch versionRE v = false →
       setVersion d v
         = (some (.validation "Please provide a valid version number."), d))
  ∧ (∀ (d : Config) (v : String), reMatch androidVersionCodeRE v = false →
       setAndroidVersionCode d v
         = (some (.validation "Please provide a valid Android version code."), d))
  ∧ (∀ (d : Config) (v : String), reMatch iosBundleVersionRE v = false →
       setIOSBundleVersion d v
         = (some (.validation "Please provide a valid iOS bundle version number."), d))
  ∧ (∀ (d : Config) (t s : String), cordovaHookTypes.contains t = false →
       addHook d t s
         = (some (.validation "Please provide a valid hook target"), d)) := by
  refine ⟨?_, ?_, ?_, ?_, ?_⟩
  · intro d x h; simp [setID, h]
  · intro d x h; simp [setVersion, h]
  · intro d x h; simp [setAndroidVersionCode, h]
  · intro d x h; simp [setIOSBundleVersion, h]
  · intro d t s h
    have hm : t ∉ cordovaHookTypes := by
      intro hmem
      rw [(contains_iff _ _).mpr hmem] at h
      simp at h
    simp [addHook, hm]

theorem claim_C3_validation_atomic_witness :
    setID sampleConfig "-bad"
      = (some (.validation "Please provide a valid id."), sampleConfig)
  ∧ setVersion sampleConfig "abc"
      = (some (.validation "Please provide a valid version number."), sampleConfig)
  ∧ setAndroidVersionCode sampleConfig "12a"
      = (some (.validation "Please provide a valid Android version code."), sampleConfig)
  ∧ setIOSBundleVersion sampleConfig "0"
      = (some (.validation "Please provide a valid iOS bundle version number."), sampleConfig)
  ∧ addHook sampleConfig "not_a_real_hook" "x"
      = (some (.validation "Please provide a valid hook target"), sampleConfig) :=
  ⟨claim_C3_validation_atomic.1 sampleConfig "-bad" rfl,
   claim_C3_validation_atomic.2.1 sampleConfig "abc" rfl,
   claim_C3_validation_atomic.2.2.1 sampleConfig "12a" rfl,
   claim_C3_validation_atomic.2.2.2.1 sampleConfig "0" rfl,
   claim_C3_validation_atomic.2.2.2.2 sampleConfig "not_a_real_hook" "x" rfl⟩

/-- C4: `addHook` succeeds iff the type is one of the 34 recognized hook
names; success appends exactly one new `hook` child with the `type` and
`src` attributes (no deduplication — two identical successful calls append
two), and an unrecognized type fails with the `ValidationError` and adds
nothing. -/
theorem claim_C4_addHook (d : Config) (t s : String) :
    ((addHook d t s).1 = none ↔ t ∈ cordovaHookTypes)
  ∧ (t ∈ cordovaHookTypes →
       addHook d t s
         = (none, { d with root := appendChild d.root (hookElement t s) }))
  ∧ (t ∉ cordovaHookTypes →
       addHook d t s
         = (some (.validation "Please provide a valid hook target"), d))
  ∧ (t ∈ cordovaHookTypes →
       (addHook (addHook d t s).2 t s).2.root.children
         = d.root.children ++ [hookElement t s, hookElement t s]) := by
  by_cases hm : t ∈ cordovaHookTypes
  · have hct : cordovaHookTypes.contains t = true := (contains_iff _ _).mpr hm
    have hone : ∀ (d2 : Config), addHook d2 t s
        = (none, { d2 with root := appendChild d2.root (hookElement t s) }) := by
      intro d2
      simp [addHook, hct, hm]
    refine ⟨?_, fun _ => hone d, fun hnm => absurd hm hnm, fun _ => ?_⟩
    · rw [hone d]
      simpa using hm
    · rw [hone d]
      simp only
      rw [hone]
      simp [appendChild_children]
  · have hct : cordovaHookTypes.contains t = false := by
      rcases Bool.eq_false_or_eq_true (cordovaHookTypes.contains t) with h | h
      · exact absurd ((contains_iff _ _).mp h) hm
      · exact h
    have herr : addHook d t s
        = (some (.validation "Please provide a valid hook target"), d) := by
      simp [addHook, hm]
    refine ⟨?_, fun h => absurd h hm, fun _ => herr, fun h => absurd h hm⟩
    rw [herr]
    simpa using hm

theorem claim_C4_addHook_witness :
    ("before_build" ∈ cordovaHookTypes
      ∧ (addHook (addHook sampleConfig "before_build" "hooks/a.js").2
            "before_build" "hooks/a.js").2.root.children
          = sampleConfig.root.children
              ++ [hookElement "before_build" "hooks/a.js",
                  hookElement "before_build" "hooks/a.js"])
  ∧ ("not_a_real_hook" ∉ cordovaHookTypes
      ∧ addHook sampleConfig "not_a_real_hook" "x"
          = (some (.validation "Please provide a valid hook target"),
             sampleConfig)) :=
  ⟨⟨by decide,
    (claim_C4_addHook sampleConfig "before_build" "hooks/a.js").2.2.2 (by decide)⟩,
   ⟨by decide,
    (claim_C4_addHook sampleConfig "not_a_real_hook" "x").2.2.1 (by decide)⟩⟩

/-- C5: one `setAccessOrigin(origin, options)` call first removes the
existing matching `access` child (if any) and then appends one new
`access` node with the `origin` attribute followed by every option
key/value; hence on a document without duplicate origins, two calls for
the same origin (the second with options) leave exactly one `access`
element with that origin, carrying the latest options. -/
theorem claim_C5_setAccessOrigin (d : Config) (o : String)
    (opts : List (String × String))
    (hnd : (opts.map Prod.fst).Nodup) (hno : "origin" ∉ opts.map Prod.fst) :
    ((setAccessOrigin d o opts).root.children
        = eraseFirstP (accessPred o) d.root.children ++ [accessElement o opts])
  ∧ (List.countP (accessPred o) d.root.children ≤ 1 →
      ((setAccessOrigin (setAccessOrigin d o []) o opts).root.children).filter
          (accessPred o)
        = [accessElement o opts]) := by
  refine ⟨setAccessOrigin_children d o opts hnd hno, ?_⟩
  intro hle
  have h1 : (setAccessOrigin d o []).root.children
      = eraseFirstP (accessPred o) d.root.children ++ [accessElement o []] :=
    setAccessOrigin_children d o [] (by simp) (by simp)
  have h2 : (setAccessOrigin (setAccessOrigin d o []) o opts).root.children
      = eraseFirstP (accessPred o) ((setAccessOrigin d o []).root.children)
          ++ [accessElement o opts] :=
    setAccessOrigin_children _ o opts hnd hno
  have hz : (eraseFirstP (accessPred o) d.root.children).countP (accessPred o)
      = 0 := eraseFirstP_of_countP_le_one _ _ hle
  have hnomatch : ∀ c ∈ eraseFirstP (accessPred o) d.root.children,
      ¬ accessPred o c := List.countP_eq_zero.mp hz
  rw [h2, h1, eraseFirstP_append_of_no_match _ _ _ hnomatch]
  have hone : eraseFirstP (accessPred o) [accessElement o []] = [] := by
    simp [eraseFirstP, accessPred_accessElement]
  rw [hone, List.append_nil, List.filter_append]
  rw [List.filter_eq_nil.mpr hnomatch]
  simp [accessPred_accessElement]

theorem claim_C5_setAccessOrigin_witness :
    ((setAccessOrigin (setAccessOrigin sampleConfig "https://a.com" [])
        "https://a.com" [("subdomains", "true")]).root.children).filter
        (accessPred "https://a.com")
      = [accessElement "https://a.com" [("subdomains", "true")]] :=
  (claim_C5_setAccessOrigin sampleConfig "https://a.com"
    [("subdomains", "true")] (by decide) (by decide)).2 (by decide)

/-- C6: `removeAccessOrigins()` removes every direct `access` child of
root and nothing else: afterwards no `access` child remains, the other
children are exactly the old non-`access` children (in order), and the
root's tag, attributes, text and the file are untouched. -/
theorem claim_C6_removeAccessOrigins (d : Config) :
    ((removeAccessOrigins d).root.children.filter
        (fun c => c.tag == "access") = [])
  ∧ ((removeAccessOrigins d).root.children.filter
        (fun c => !(c.tag == "access"))
      = d.root.children.filter (fun c => !(c.tag == "access")))
  ∧ (removeAccessOrigins d).root.tag = d.root.tag
  ∧ (removeAccessOrigins d).root.attrib = d.root.attrib
  ∧ (removeAccessOrigins d).root.text = d.root.text
  ∧ (removeAccessOrigins d).file = d.file := by
  refine ⟨?_, ?_, rfl, rfl, rfl, rfl⟩
  · have hch : (removeAccessOrigins d).root.children
        = d.root.children.filter (fun c => !(c.tag == "access")) := rfl
    rw [hch, List.filter_filter]
    simp
  · have hch : (removeAccessOrigins d).root.children
        = d.root.children.filter (fun c => !(c.tag == "access")) := rfl
    rw [hch, List.filter_filter]
    simp

/-- C7: loading a well-formed document whose root tag is not `widget`
fails with the schema error whose message starts with the file name and
spells out both the expected tag `widget` and the actual tag, and no
document is produced; with root tag `widget` the parsed document is
returned. -/
theorem claim_C7_parse (file : String) (el : Element) :
    (el.tag ≠ "widget" →
      parse file el
        = .error (file
            ++ " has incorrect root node name (expected \"widget\", was \""
            ++ el.tag ++ "\")"))
  ∧ (el.tag = "widget" → parse file el = .ok ⟨file, el⟩) := by
  constructor
  · intro h
    simp [parse, h]
  · intro h
    simp [parse, h]

theorem claim_C7_parse_witness :
    parse "config.xml" (.mk "plugin" [] "" [])
      = .error ("config.xml"
          ++ " has incorrect root node name (expected \"widget\", was \""
          ++ (Element.mk "plugin" [] "" []).tag ++ "\")")
  ∧ parse "config.xml" (.mk "widget" [] "" [])
      = .ok ⟨"config.xml", .mk "widget" [] "" []⟩ :=
  ⟨(claim_C7_parse "config.xml" (.mk "plugin" [] "" [])).1 (by decide),
   (claim_C7_parse "config.xml" (.mk "widget" [] "" [])).2 rfl⟩

/-- C8: on a document whose root tag is `widget`, the path resolver maps
an absent path to an absent path, replaces a leading `/widget` by `.`
(dropping the 7-character prefix), and returns every other path — the
empty string included — unchanged; it is a total function, so it never
raises. -/
theorem claim_C8_fixAbsoluteXPath (d : Config) (p : String)
    (h : d.root.tag = "widget") :
    (fixAbsoluteXPath d none = none)
  ∧ (p ≠ "" → "/widget".data.isPrefixOf p.data = true →
      fixAbsoluteXPath d (some p) = some ("." ++ p.drop 7))
  ∧ (¬(p ≠ "" ∧ "/widget".data.isPrefixOf p.data = true) →
      fixAbsoluteXPath d (some p) = some p) := by
  have hpfx : ("/" ++ d.root.tag) = "/widget" := by rw [h]; rfl
  refine ⟨rfl, ?_, ?_⟩
  · intro hne hpref
    simp only [fixAbsoluteXPath, hpfx]
    rw [if_pos ⟨hne, hpref⟩]
    rfl
  · intro hn
    simp only [fixAbsoluteXPath, hpfx]
    rw [if_neg hn]

theorem claim_C8_fixAbsoluteXPath_witness :
    fixAbsoluteXPath sampleConfig (some "/widget/foo") = some "./foo"
  ∧ fixAbsoluteXPath sampleConfig (some "./bar") = some "./bar"
  ∧ fixAbsoluteXPath sampleConfig (some "") = some ""
  ∧ fixAbsoluteXPath sampleConfig none = none :=
  ⟨(claim_C8_fixAbsoluteXPath sampleConfig "/widget/foo" rfl).2.1
      (by decide) (by decide),
   (claim_C8_fixAbsoluteXPath sampleConfig "./bar" rfl).2.2 (by decide),
   (claim_C8_fixAbsoluteXPath sampleConfig "" rfl).2.2 (by decide),
   (claim_C8_fixAbsoluteXPath sampleConfig "" rfl).1⟩

/-- C9: `addRawXML` is a silent no-op — same document, no error — when
`atXPath` is given but matches nothing, or when `ifXPathDoesNotExist` is
given and already matches; otherwise it appends the parsed fragment as a
child of the matched node (of the root when `atXPath` is absent), and
re-running the path finds the matched node with the fragment appended. -/
theorem claim_C9_addRawXML (d : Config) (raw : Element) (p q : List Step)
    (op oq : Option (List Step)) :
    (findPath p d.root = none → addRawXML d raw (some p) oq = d)
  ∧ ((findPath q d.root).isSome = true → addRawXML d raw op (some q) = d)
  ∧ ((∀ q2, oq = some q2 → findPath q2 d.root = none) →
      addRawXML d raw none oq = { d with root := appendChild d.root raw })
  ∧ (∀ x, findPath p d.root = some x →
      (∀ q2, oq = some q2 → findPath q2 d.root = none) →
      ∃ r, updateFirst p (fun e => appendChild e raw) d.root = some r
         ∧ addRawXML d raw (some p) oq = { d with root := r }
         ∧ findPath p r = some (appendChild x raw)) := by
  refine ⟨?_, ?_, ?_, ?_⟩
  · intro hf
    have hupd : updateFirst p (fun e => appendChild e raw) d.root = none := by
      have hs := updateFirst_isSome p d.root (fun e => appendChild e raw)
      rw [hf] at hs
      exact Option.not_isSome_iff_eq_none.mp (by simp [hs])
    cases oq with
    | none => simp [addRawXML, hupd]
    | some q2 =>
        by_cases hq : (findPath q2 d.root).isSome
        · simp [addRawXML, hq]
        · simp [addRawXML, hq, hupd]
  · intro hq
    cases op with
    | none => simp [addRawXML, hq]
    | some p2 => simp [addRawXML, hq]
  · intro hsk
    cases oq with
    | none => simp [addRawXML]
    | some q2 =>
        have hq := hsk q2 rfl
        simp [addRawXML, hq]
  · intro x hx hsk
    obtain ⟨r, hupd, hfind⟩ := updateFirst_findPath raw p d.root x hx
    refine ⟨r, hupd, ?_, hfind⟩
    cases oq with
    | none => simp [addRawXML, hupd]
    | some q2 =>
        have hq := hsk q2 rfl
        simp [addRawXML, hq, hupd]

theorem claim_C9_addRawXML_witness :
    (addRawXML sampleConfig (.mk "foo" [] "" [])
        (some [.byTag "missing", .byTag "path"]) none = sampleConfig)
  ∧ (addRawXML sampleConfig2 (.mk "foo" [] "" []) none
        (some [.byTag "name"]) = sampleConfig2)
  ∧ (addRawXML sampleConfig (.mk "foo" [] "" []) none none
      = { sampleConfig with
            root := appendChild sampleConfig.root (.mk "foo" [] "" []) })
  ∧ (∃ r, updateFirst [.byTag "platform"]
          (fun e => appendChild e (.mk "foo" [] "" [])) sampleConfig2.root
        = some r
      ∧ addRawXML sampleConfig2 (.mk "foo" [] "" [])
          (some [.byTag "platform"]) none = { sampleConfig2 with root := r }
      ∧ findPath [.byTag "platform"] r
          = some (appendChild (.mk "platform" [("name", "ios")] "" [])
              (.mk "foo" [] "" []))) :=
  ⟨(claim_C9_addRawXML sampleConfig (.mk "foo" [] "" [])
      [.byTag "missing", .byTag "path"] [] none none).1 rfl,
   (claim_C9_addRawXML sampleConfig2 (.mk "foo" [] "" [])
      [] [.byTag "name"] none none).2.1 rfl,
   (claim_C9_addRawXML sampleConfig (.mk "foo" [] "" [])
      [] [] none none).2.2.1 (fun q2 h => Option.noConfusion h),
   (claim_C9_addRawXML sampleConfig2 (.mk "foo" [] "" [])
      [.byTag "platform"] [] none none).2.2.2
      (.mk "platform" [("name", "ios")] "" []) rfl
      (fun q2 h => Option.noConfusion h)⟩

/-- C10: on a document that already has two or more direct `access`
children with the same origin, `removeAccessOrigin` removes only the
first matching one (the match count drops by exactly one, so duplicates
remain), and consequently `setAccessOrigin(origin)` leaves at least two
`access` elements with that origin. -/
theorem claim_C10_duplicate_origins (d : Config) (o : String)
    (h2 : 2 ≤ List.countP (accessPred o) d.root.children) :
    ((removeAccessOrigin d o).root.children
        = eraseFirstP (accessPred o) d.root.children)
  ∧ (List.countP (accessPred o) ((removeAccessOrigin d o).root.children)
        = List.countP (accessPred o) d.root.children - 1)
  ∧ (1 ≤ List.countP (accessPred o) ((removeAccessOrigin d o).root.children))
  ∧ (2 ≤ List.countP (accessPred o)
        ((setAccessOrigin d o []).root.children)) := by
  have hch : (removeAccessOrigin d o).root.children
      = eraseFirstP (accessPred o) d.root.children := by
    rw [(removeAccessOrigin_root d o).1, withChildren_children]
  have h1 : 1 ≤ List.countP (accessPred o) d.root.children := by omega
  have hcount := countP_eraseFirstP (accessPred o) d.root.children h1
  refine ⟨hch, by rw [hch, hcount], ?_, ?_⟩
  · rw [hch, hcount]
    omega
  · have hel : List.countP (accessPred o) [accessElement o []] = 1 := by
      simp [accessPred_accessElement]
    rw [setAccessOrigin_children d o [] (by simp) (by simp),
      List.countP_append, hcount, hel]
    omega

theorem claim_C10_duplicate_origins_witness :
    ((removeAccessOrigin dupConfig "https://a.com").root.children
        = eraseFirstP (accessPred "https://a.com") dupConfig.root.children)
  ∧ (List.countP (accessPred "https://a.com")
        ((removeAccessOrigin dupConfig "https://a.com").root.children)
      = List.countP (accessPred "https://a.com") dupConfig.root.children - 1)
  ∧ (1 ≤ List.countP (accessPred "https://a.com")
        ((removeAccessOrigin dupConfig "https://a.com").root.children))
  ∧ (2 ≤ List.countP (accessPred "https://a.com")
        ((setAccessOrigin dupConfig "https://a.com" []).root.children)) :=
  claim_C10_duplicate_origins dupConfig "https://a.com" (by decide)

end CordovaConfig
